import Mathlib

/-!
Verification development for the overworld ROM import pipeline.

Shallow embedding of the import code (`src/import.rs`, `src/state.rs`):
bytes are `Nat` values below 256, the ROM is a `List Nat`, machine
integers are modelled as `Nat` with explicit masks where the source
wraps, and fallible operations return `Option`. Fields of source
structs that only serve the interactive editor (names, modified flags,
serialization) are omitted; everything the theorems mention is
translated from the source.
-/

namespace Z3OE

/-! ### ROM byte reads (import.rs, `impl Rom`) -/

structure Rom where
  data : List Nat

/-- `Rom::read_u8`: bounds-checked single byte read. -/
def Rom.read_u8 (rom : Rom) (addr : Nat) : Option Nat :=
  rom.data[addr]?

/-- `Rom::read_u16`: little-endian 16-bit read (`b0 | b1 << 8`). -/
def Rom.read_u16 (rom : Rom) (addr : Nat) : Option Nat :=
  match rom.data[addr]?, rom.data[addr + 1]? with
  | some b0, some b1 => some (b0 ||| b1 <<< 8)
  | _, _ => Option.none

/-- `Rom::read_u24`: little-endian 24-bit read. -/
def Rom.read_u24 (rom : Rom) (addr : Nat) : Option Nat :=
  match rom.data[addr]?, rom.data[addr + 1]?, rom.data[addr + 2]? with
  | some b0, some b1, some b2 => some (b0 ||| b1 <<< 8 ||| b2 <<< 16)
  | _, _, _ => Option.none

/-- `Rom::read_n`: a slice of `n` bytes starting at `addr`. -/
def Rom.read_n (rom : Rom) (addr n : Nat) : Option (List Nat) :=
  if addr + n ≤ rom.data.length then some ((rom.data.drop addr).take n)
  else Option.none

/-! ### Address translation (import.rs, `impl From<SnesAddr> for PcAddr`) -/

/-- The translation formula `addr >> 1 & 0x3F8000 | addr & 0x7FFF`. -/
def snesToPc (a : Nat) : Nat :=
  (a >>> 1) &&& 0x3F8000 ||| (a &&& 0x7FFF)

/-- The full conversion, including the source's
`assert!(addr.0 & 0x8000 == 0x8000)`; a failed assertion (a panic in
the source) is modelled as `Option.none`. -/
def snesToPcChecked (a : Nat) : Option Nat :=
  if a &&& 0x8000 = 0x8000 then some (snesToPc a) else Option.none

/-- A byte read addressed in SNES space, as `rom.read_u8(addr.into())`
appears throughout the importer. -/
def readSnes (rom : Rom) (a : Nat) : Option Nat :=
  (snesToPcChecked a).bind rom.read_u8

/-- A SNES address that selects ROM content: the `0x8000` bit is set
(the source's assertion) and the bank is not one of the mirrored upper
banks (bit 23 clear), so the address is below `0x800000`. -/
def validSnes (a : Nat) : Prop :=
  a < 0x800000 ∧ a &&& 0x8000 = 0x8000

/-- Left inverse of `snesToPc` on `validSnes` addresses: the file
offset's bits 15.. name the bank, the low 15 bits are kept, and the
`0x8000` half-bank bit is restored. -/
def pcToSnes (r : Nat) : Nat :=
  ((r >>> 15) <<< 16) ||| 0x8000 ||| (r &&& 0x7FFF)

/-! ### Decompression codec (import.rs, `fn decompress`) -/

/-- Parsing of a non-`0xFF` control byte `byte`, with `addr` the
position just after it (the source inlines this at the top of the
`decompress` loop): top 3 bits ≠ 7 gives a short header, top 3 bits
= 7 reads one extra byte and forms the extended length. Returns
(block type, size, position after the header). -/
def readBlockHeader (rom : Rom) (byte addr : Nat) : Option (Nat × Nat × Nat) :=
  let block_type := byte >>> 5
  if block_type ≠ 7 then
    some (block_type, (byte &&& 0x1F) + 1, addr)
  else
    match rom.read_u8 addr with
    | some b2 => some ((byte >>> 2) &&& 7, ((byte &&& 3) <<< 8 ||| b2) + 1, addr + 1)
    | Option.none => Option.none

/-- Block type 3: `size` bytes starting at seed `b`, each later byte the
previous plus one with wrap-around at 256 (`u8::wrapping_add`). -/
def incSeq (b : Nat) : Nat → List Nat
  | 0 => []
  | n + 1 => b :: incSeq ((b + 1) % 256) n

/-- The loop of block type 4: `for i in offset..(offset + size) {
out.push(out[i]); }`, pushing one byte at a time so that later
iterations may read bytes pushed by earlier ones (overlap). The
source's `out[i]` panics when out of bounds; under the guard
`offset < out.len()` every index is in bounds, and the `getD` default
is never taken. -/
def backrefCopyAux : List Nat → Nat → Nat → List Nat
  | out, _, 0 => out
  | out, i, n + 1 => backrefCopyAux (out ++ [out.getD i 0]) (i + 1) n

/-- Back-reference copy of `size` bytes starting at `offset`. -/
def backrefCopy (out : List Nat) (offset size : Nat) : List Nat :=
  backrefCopyAux out offset size

/-- One `decompress` loop, fuel-indexed: each iteration consumes at
least one byte so `rom.data.length + 1` of fuel always suffices.
Failures (`bail!`, failed reads, the `assert!` on the back-reference
offset) are `Option.none`. -/
def decompressAux (rom : Rom) (big_endian_offset : Bool) :
    Nat → Nat → List Nat → Option (List Nat)
  | 0, _, _ => Option.none
  | fuel + 1, addr, out =>
    match rom.read_u8 addr with
    | Option.none => Option.none
    | some byte =>
      if byte = 0xFF then some out
      else
        match readBlockHeader rom byte (addr + 1) with
        | Option.none => Option.none
        | some (block_type, size, addr2) =>
          match block_type with
          | 0 =>
            match rom.read_n addr2 size with
            | some chunk => decompressAux rom big_endian_offset fuel (addr2 + size) (out ++ chunk)
            | Option.none => Option.none
          | 1 =>
            match rom.read_u8 addr2 with
            | some value => decompressAux rom big_endian_offset fuel (addr2 + 1) (out ++ List.replicate size value)
            | Option.none => Option.none
          | 2 =>
            match rom.read_u8 addr2, rom.read_u8 (addr2 + 1) with
            | some b0, some b1 =>
              decompressAux rom big_endian_offset fuel (addr2 + 2)
                (out ++ ((List.replicate (size >>> 1) [b0, b1]).flatten ++ if size &&& 1 = 1 then [b0] else []))
            | _, _ => Option.none
          | 3 =>
            match rom.read_u8 addr2 with
            | some b => decompressAux rom big_endian_offset fuel (addr2 + 1) (out ++ incSeq b size)
            | Option.none => Option.none
          | 4 =>
            match (if big_endian_offset then
                     match rom.read_u8 addr2, rom.read_u8 (addr2 + 1) with
                     | some hi, some lo => some (hi <<< 8 ||| lo)
                     | _, _ => Option.none
                   else rom.read_u16 addr2) with
            | some offset =>
              if offset < out.length then
                decompressAux rom big_endian_offset fuel (addr2 + 2) (backrefCopy out offset size)
              else Option.none
            | Option.none => Option.none
          | _ => Option.none

/-- `fn decompress(rom, addr, big_endian_offset)`. -/
def decompress (rom : Rom) (addr : Nat) (big_endian_offset : Bool) : Option (List Nat) :=
  decompressAux rom big_endian_offset (rom.data.length + 1) addr []

/-! ### Flips and tiles (state.rs) -/

/-- `enum Flip { None, Horizontal, Vertical, Both }`. -/
inductive Flip where
  | none
  | horizontal
  | vertical
  | both
deriving DecidableEq

/-- `Flip::apply_to_pixels`: horizontal reverses each row, vertical
reverses the rows, both does both. Pixel grids are lists of rows. -/
def Flip.apply_to_pixels : Flip → List (List Nat) → List (List Nat)
  | Flip.none, pixels => pixels
  | Flip.horizontal, pixels => pixels.map List.reverse
  | Flip.vertical, pixels => pixels.reverse
  | Flip.both, pixels => (pixels.map List.reverse).reverse

/-- `struct Tile` (state.rs): priority, collision code, legal-flip
flags, and the 8×8 pixel grid. Equality is the Rust `derive(PartialEq,
Eq)`: structural over all five fields. -/
structure Tile where
  priority : Bool
  collision : Nat
  h_flippable : Bool
  v_flippable : Bool
  pixels : List (List Nat)
deriving DecidableEq

/-- `Tile::default()`: all-false flags, collision 0, blank 8×8 grid. -/
def Tile.default : Tile :=
  ⟨false, 0, false, false, List.replicate 8 (List.replicate 8 0)⟩

/-- `Flip::apply_to_tile`: applies the flip to the pixels only. -/
def Flip.apply_to_tile (f : Flip) (t : Tile) : Tile :=
  { t with pixels := f.apply_to_pixels t.pixels }

/-! ### Tile canonicalizer (import.rs, `load_areas` lines 859–901)

The per-palette deduplication state: `tile_lookup` models the
`HashMap<Tile, (usize, Flip)>` as a function, `used_tiles` and the two
flippable bit vectors are the parallel vectors of the source. -/

structure CanonState where
  tile_lookup : Tile → Option (Nat × Flip)
  used_tiles : List Tile
  h_flippable : List Bool
  v_flippable : List Bool

/-- `HashMap::insert`: later insertions of an equal key overwrite. -/
def insertEntry (m : Tile → Option (Nat × Flip)) (k : Tile) (v : Nat × Flip) :
    Tile → Option (Nat × Flip) :=
  fun k2 => if k2 = k then some v else m k2

/-- The `match flip { ... }` after the lookup: a flip actually used to
reach a stored tile marks the corresponding legal-flip bits. -/
def markFlip (s : CanonState) (idx : Nat) : Flip → CanonState
  | Flip.none => s
  | Flip.horizontal => { s with h_flippable := s.h_flippable.set idx true }
  | Flip.vertical => { s with v_flippable := s.v_flippable.set idx true }
  | Flip.both =>
    { s with h_flippable := s.h_flippable.set idx true,
             v_flippable := s.v_flippable.set idx true }

/-- One canonicalizer step on an already-flipped tile: hit returns the
stored entry; miss allocates the next index, pushes the tile and false
flag bits, and inserts the tile's four flip images as keys (in the
source's order None, Horizontal, Vertical, Both). -/
def canonicalize (s : CanonState) (tile : Tile) : CanonState × Nat × Flip :=
  let r :=
    match s.tile_lookup tile with
    | some (idx, flip) => (s, idx, flip)
    | Option.none =>
      let idx := s.used_tiles.length
      let lk := [Flip.none, Flip.horizontal, Flip.vertical, Flip.both].foldl
        (fun m (f : Flip) => insertEntry m (f.apply_to_tile tile) (idx, f)) s.tile_lookup
      (⟨lk, s.used_tiles ++ [tile], s.h_flippable ++ [false], s.v_flippable ++ [false]⟩,
        idx, Flip.none)
  (markFlip r.1 r.2.1 r.2.2, r.2.1, r.2.2)

/-- The canonicalizer as the call site uses it: the desired flip
(`t8.flip`) is applied to the tile's pixels before the lookup. -/
def canonicalizeWith (s : CanonState) (t : Tile) (desired : Flip) : CanonState × Nat × Flip :=
  canonicalize s { t with pixels := desired.apply_to_pixels t.pixels }

/-- The empty per-palette state (`HashMap::new()`, empty vectors). -/
def emptyCanon : CanonState :=
  ⟨fun _ => Option.none, [], [], []⟩

/-- Invariant of the lookup map maintained by `canonicalize`: every key
of a stored index is accompanied by its whole flip orbit, mapping to the
same index. -/
def orbitClosed (m : Tile → Option (Nat × Flip)) : Prop :=
  ∀ k i f, m k = some (i, f) → ∀ g : Flip, ∃ f2, m (g.apply_to_tile k) = some (i, f2)

/-! ### Palette resolution (import.rs, `load_map_palettes`)

`struct Constants`: only the fields `load_map_palettes` reads are
modelled (addresses are SNES addresses, as in the source). -/

structure Constants where
  custom_map_main_pal_set_addr : Option Nat
  map_aux_pal_set_addr : Nat
  special_map_pal_set_addr : Nat
  pal_set_addr : Nat

structure MapPalettes where
  main : Nat
  aux1 : Nat
  aux2 : Nat
  animated : Nat
deriving DecidableEq

/-- The `main` group selection for slot `i` (parent `parent`): the
variant override table when present, else the hard-coded region-index
ranges; the final `panic!("internal error")` arm is `Option.none`. -/
def mainOf (rom : Rom) (c : Constants) (i parent : Nat) : Option Nat :=
  match c.custom_map_main_pal_set_addr with
  | some main_pal_addr => readSnes rom (main_pal_addr + parent)
  | Option.none =>
    if i = 3 ∨ i = 5 ∨ i = 7 then some 2
    else if i < 0x40 then some 0
    else if i = 0x43 ∨ i = 0x45 ∨ i = 0x47 then some 3
    else if i < 0x80 then some 1
    else if i = 0x88 then some 4
    else if i < 0xA0 then some 0
    else Option.none

/-- The `pal_set` lookup: fixed 0 for the triforce room, the special
table for parents ≥ 0x80, else the aux table at the parent's index. -/
def palSetOf (rom : Rom) (c : Constants) (i parent : Nat) : Option Nat :=
  if i = 0x88 then some 0
  else if parent ≥ 0x80 then readSnes rom (c.special_map_pal_set_addr + (parent - 0x80))
  else readSnes rom (c.map_aux_pal_set_addr + parent)

/-- `prev_pal_set`: the aux table at `parent - 1`, or 0 for parent 0. -/
def prevPalSetOf (rom : Rom) (c : Constants) (parent : Nat) : Option Nat :=
  if parent ≥ 1 then readSnes rom (c.map_aux_pal_set_addr + (parent - 1))
  else some 0

/-- One iteration of the `load_map_palettes` loop (slot `i`, with
`parent = map_parents[i]`): reads aux1/aux2/animated from the pal_set
table, corrects out-of-range aux1 (≥ 20) and animated (≥ 14) to 0, and
replaces out-of-range aux2 (≥ 20) by re-reading the previous slot's
pal_set aux2 entry. -/
def loadMapPalettesSingle (rom : Rom) (c : Constants) (i parent : Nat) : Option MapPalettes :=
  (mainOf rom c i parent).bind fun main =>
  (palSetOf rom c i parent).bind fun pal_set =>
  (prevPalSetOf rom c parent).bind fun prev_pal_set =>
  (readSnes rom (c.pal_set_addr + pal_set * 4)).bind fun aux1 =>
  (readSnes rom (c.pal_set_addr + pal_set * 4 + 1)).bind fun aux2 =>
  (readSnes rom (c.pal_set_addr + pal_set * 4 + 2)).bind fun animated =>
  ((if aux2 ≥ 20 then readSnes rom (c.pal_set_addr + prev_pal_set * 4 + 1)
    else some aux2).bind fun aux2c =>
  some ⟨main, if aux1 ≥ 20 then 0 else aux1, aux2c, if animated ≥ 14 then 0 else animated⟩)

/-! ### Map tile grids (import.rs, `load_map_tiles`) -/

/-- One cell of a map slot's 32×32-tile composite grid: combine the
high and low planes as `(high << 8) | low`, and clamp an index at or
above `tiles32_cnt` to 0. -/
def mapCell (high_data low_data : List Nat) (tiles32_cnt j : Nat) : Nat :=
  let tile32_idx := (high_data.getD j 0) <<< 8 ||| low_data.getD j 0
  if tile32_idx ≥ tiles32_cnt then 0 else tile32_idx

/-- The 16×16 block built by the `load_map_tiles` inner loops
(row-major, `j = y * 16 + x`). -/
def buildMapBlock (high_data low_data : List Nat) (tiles32_cnt : Nat) : List (List Nat) :=
  (List.range 16).map fun y =>
    (List.range 16).map fun x => mapCell high_data low_data tiles32_cnt (y * 16 + x)

/-- The `info!` records emitted by the same loop: one `(x, y, index)`
entry per out-of-bounds composite-32 index, in loop order. -/
def mapBlockLog (high_data low_data : List Nat) (tiles32_cnt : Nat) : List (Nat × Nat × Nat) :=
  ((List.range 16).map fun y =>
    (List.range 16).filterMap fun x =>
      let tile32_idx := (high_data.getD (y * 16 + x) 0) <<< 8 ||| low_data.getD (y * 16 + x) 0
      if tile32_idx ≥ tiles32_cnt then some (x, y, tile32_idx) else Option.none).flatten

/-! ### Map parents and region geometry (import.rs, `load_map_parents`,
`load_areas`) -/

/-- `load_map_parents`: identity over `0..160`, then the fixed list of
large-area 2×2 blocks (top-left slots, in both worlds), then the
irregular one-off remappings. -/
def load_map_parents : List Nat :=
  let ps := ([0, 3, 5, 24, 27, 30, 48, 53].map fun i => [i, i + 64]).flatten.foldl
    (fun ps b => ((ps.set (b + 1) b).set (b + 8) b).set (b + 9) b)
    (List.range 160)
  ((((((((((ps.set 130 129).set 137 129).set 138 129).set 148 128).set 149 3).set
    150 91).set 151 0).set 156 67).set 157 0).set 158 0).set 159 44

/-- The `size` computed per top-level region in `load_areas`: a 2×2
slot block when `block_x <= 6` and the next slot's parent is this
region, else 1×1 (in map-slot units). -/
def regionSize (parents : List Nat) (parent : Nat) : Nat × Nat :=
  if parent % 8 ≤ 6 ∧ parents.getD (parent + 1) 0xFFFF = parent then (2, 2)
  else (1, 1)

/-- The emitted `Area.size`: the slot-block size doubled, in 256×256
screens (`size: (size.0 * 2, size.1 * 2)`). -/
def areaScreenSize (parents : List Nat) (parent : Nat) : Nat × Nat :=
  let size := regionSize parents parent
  (size.1 * 2, size.2 * 2)

/-- The map slots whose tile data the `load_areas` grid walk reads for
a region: `map_idx = parent + my * 8 + mx` over the region size, in
loop order. -/
def regionMapIdxs (parents : List Nat) (parent : Nat) : List Nat :=
  let size := regionSize parents parent
  ((List.range size.2).map fun my =>
    (List.range size.1).map fun mx => parent + my * 8 + mx).flatten

/-! ### Tile list finalization and pruning (import.rs, `load_areas`
tail and `prune_palettes`) -/

/-- `struct Palette` (state.rs), restricted to the fields the import
tail reads; display-only fields are omitted. -/
structure Palette where
  id : Nat
  tiles : List Tile

/-- The loop writing the learned flip flags back into the used tiles
(`used_tiles[i][j].h_flippable = h_flippable[i][j]`, same for v); the
three lists always have equal length at this point. -/
def setFlags : List Tile → List Bool → List Bool → List Tile
  | t :: ts, h :: hs, v :: vs =>
    { t with h_flippable := h, v_flippable := v } :: setFlags ts hs vs
  | _, _, _ => []

/-- `used_tiles[i].resize((n + 15) / 16 * 16, Tile::default())`: pad
with default tiles up to the next multiple of 16 (a no-op at 0). -/
def padTiles (tiles : List Tile) : List Tile :=
  tiles ++ List.replicate ((tiles.length + 15) / 16 * 16 - tiles.length) Tile.default

/-- The tile list stored into `palettes[i].tiles` at the end of
`load_areas`. -/
def finalizeTiles (used : List Tile) (h v : List Bool) : List Tile :=
  padTiles (setFlags used h v)

/-- `prune_palettes`: keep exactly the palettes with a non-empty tile
list. -/
def prunePalettes : List Palette → List Palette
  | [] => []
  | p :: ps => if p.tiles.length > 0 then p :: prunePalettes ps else prunePalettes ps

/-- The ROM bytes of the C6 witness: aux table holds pal_set 0 for the
slot and 1 for its predecessor; pal_set table entry 0 holds aux2 = 25
(out of range) and entry 1 holds aux2 = 7. -/
def c6rom : Rom :=
  ⟨[1, 0, 0, 0, 0, 0, 0, 0, 0, 0, 0, 0, 0, 0, 0, 0, 5, 25, 3, 0, 0, 7]⟩

def c6consts : Constants :=
  ⟨Option.none, 0x8000, 0x8000, 0x8010⟩

/-! ### Helper lemmas -/

theorem backrefCopyAux_length (n : Nat) : ∀ (out : List Nat) (i : Nat),
    (backrefCopyAux out i n).length = out.length + n := by
  induction n with
  | zero => intro out i; rfl
  | succ n ih =>
    intro out i
    rw [show backrefCopyAux out i (n + 1)
        = backrefCopyAux (out ++ [out.getD i 0]) (i + 1) n from rfl, ih]
    simp only [List.length_append, List.length_cons, List.length_nil]
    omega

theorem backrefCopyAux_getD_low (n : Nat) : ∀ (out : List Nat) (i j : Nat), j < out.length →
    (backrefCopyAux out i n).getD j 0 = out.getD j 0 := by
  induction n with
  | zero => intro out i j _; rfl
  | succ n ih =>
    intro out i j h
    rw [show backrefCopyAux out i (n + 1)
        = backrefCopyAux (out ++ [out.getD i 0]) (i + 1) n from rfl]
    rw [ih _ _ _ (by simp only [List.length_append, List.length_cons, List.length_nil]; omega)]
    simp [List.getD_eq_getElem?_getD, List.getElem?_append_left h]

theorem backrefCopyAux_spec (n : Nat) : ∀ (out : List Nat) (i : Nat), i < out.length →
    ∀ k, k < n →
    (backrefCopyAux out i n).getD (out.length + k) 0 = (backrefCopyAux out i n).getD (i + k) 0 := by
  induction n with
  | zero => intro out i _ k hk; exact absurd hk (Nat.not_lt_zero k)
  | succ n ih =>
    intro out i hi k hk
    rw [show backrefCopyAux out i (n + 1)
        = backrefCopyAux (out ++ [out.getD i 0]) (i + 1) n from rfl]
    rcases k with _ | k
    · rw [Nat.add_zero, Nat.add_zero]
      rw [backrefCopyAux_getD_low n _ _ _ (by simp),
        backrefCopyAux_getD_low n _ _ _ (by simp only [List.length_append, List.length_cons, List.length_nil]; omega)]
      simp [List.getD_eq_getElem?_getD, List.getElem?_concat_length,
        List.getElem?_append_left hi]
    · have h2 := ih (out ++ [out.getD i 0]) (i + 1) (by simp only [List.length_append, List.length_cons, List.length_nil]; omega) k (by omega)
      rw [show out.length + (k + 1) = (out ++ [out.getD i 0]).length + k by
          simp only [List.length_append, List.length_cons, List.length_nil]; omega,
        show i + (k + 1) = (i + 1) + k by omega]
      exact h2

theorem getD_map_range {α : Type} (f : Nat → α) (n i : Nat) (d : α) (h : i < n) :
    ((List.range n).map f).getD i d = f i := by
  rw [List.getD_eq_getElem?_getD, List.getElem?_map, List.getElem?_range h]
  rfl

theorem setFlags_nil (h v : List Bool) : setFlags [] h v = [] := by
  cases h <;> cases v <;> rfl

theorem setFlags_length (used : List Tile) : ∀ (h v : List Bool),
    h.length = used.length → v.length = used.length →
    (setFlags used h v).length = used.length := by
  induction used with
  | nil => intro h v _ _; rw [setFlags_nil]
  | cons t ts ih =>
    intro h v hh hv
    cases h with
    | nil => simp at hh
    | cons hb hs =>
      cases v with
      | nil => simp at hv
      | cons vb vs =>
        simp only [setFlags, List.length_cons]
        rw [ih hs vs (by simpa using hh) (by simpa using hv)]

theorem padTiles_length (tiles : List Tile) :
    (padTiles tiles).length = (tiles.length + 15) / 16 * 16 := by
  simp [padTiles]
  omega

theorem mem_prunePalettes (ps : List Palette) (p : Palette) :
    p ∈ prunePalettes ps ↔ p ∈ ps ∧ p.tiles ≠ [] := by
  induction ps with
  | nil => simp [prunePalettes]
  | cons q qs ih =>
    by_cases hq : q.tiles.length > 0
    · have hq' : q.tiles ≠ [] := by
        intro he
        rw [he] at hq
        simp at hq
      simp only [prunePalettes, if_pos hq, List.mem_cons, ih]
      constructor
      · rintro (rfl | ⟨hp, hne⟩)
        · exact ⟨Or.inl rfl, hq'⟩
        · exact ⟨Or.inr hp, hne⟩
      · rintro ⟨rfl | hp, hne⟩
        · exact Or.inl rfl
        · exact Or.inr ⟨hp, hne⟩
    · have hq' : q.tiles = [] := by
        apply List.eq_nil_of_length_eq_zero
        omega
      simp only [prunePalettes, if_neg hq, List.mem_cons, ih]
      constructor
      · rintro ⟨hp, hne⟩
        exact ⟨Or.inr hp, hne⟩
      · rintro ⟨rfl | hp, hne⟩
        · exact absurd hq' hne
        · exact ⟨hp, hne⟩

/-! ### The claims -/

/-- C1: a control byte whose top 3 bits equal 7 (and which is not the
terminator 0xFF) makes the decompressor read exactly one additional
header byte (the cursor after the header is `addr + 1 + 1`, one past
the control byte and one past the extra byte), the run length is the
extended length `((byte & 3) << 8 | next) + 1` (which fits in 11 bits),
and the block type is bits 2–4 of the control byte. -/
theorem c1_extended_header (rom : Rom) (addr byte b2 : Nat)
    (hread : rom.read_u8 addr = some byte)
    (htop : byte >>> 5 = 7)
    (hterm : byte ≠ 0xFF)
    (hnext : rom.read_u8 (addr + 1) = some b2)
    (hb2 : b2 < 256) :
    readBlockHeader rom byte (addr + 1)
      = some ((byte >>> 2) &&& 7, ((byte &&& 3) <<< 8 ||| b2) + 1, addr + 1 + 1)
    ∧ ((byte &&& 3) <<< 8 ||| b2) + 1 ≤ 2 ^ 11 := by
  constructor
  · simp [readBlockHeader, htop, hnext]
  · have h1 : byte &&& 3 ≤ 3 := Nat.and_le_right
    have h2 : (byte &&& 3) <<< 8 < 2 ^ 10 := by
      rw [Nat.shiftLeft_eq]
      norm_num
      omega
    have h3 : (byte &&& 3) <<< 8 ||| b2 < 2 ^ 10 :=
      Nat.or_lt_two_pow h2 (by norm_num; omega)
    have h4 : (2 : Nat) ^ 10 = 1024 := by norm_num
    rw [h4] at h3
    norm_num
    omega

/-- C1 witness: control byte 0xE3 (top bits 7, block type 0) followed
by 0x05 parses to block type 0, size 0x306, cursor 2. -/
theorem c1_extended_header_witness :
    readBlockHeader ⟨[0xE3, 0x05]⟩ 0xE3 1 = some (0, 0x306, 2)
    ∧ (0x305 : Nat) + 1 ≤ 2 ^ 11 :=
  c1_extended_header ⟨[0xE3, 0x05]⟩ 0 0xE3 0x05 rfl (by decide) (by decide) rfl (by decide)

/-- C2: a back-reference copy of `n` bytes from offset `o`, with `o`
strictly below the number of bytes already decoded, appends exactly the
output stream's bytes at positions `[o, o+n)` — stated on the final
stream, which also covers the overlapping case `o + n > out.length`
where bytes produced within the same block are re-copied. -/
theorem c2_backref_copy (out : List Nat) (o n : Nat) (h : o < out.length) :
    (backrefCopy out o n).length = out.length + n
    ∧ ∀ k, k < n →
        (backrefCopy out o n).getD (out.length + k) 0
          = (backrefCopy out o n).getD (o + k) 0 :=
  ⟨backrefCopyAux_length n out o, fun k hk => backrefCopyAux_spec n out o h k hk⟩

/-- C2 witness: copying 3 bytes from offset 1 of `[1, 2]` overlaps
(`1 + 3 > 2`) and still matches the final stream position-for-position. -/
theorem c2_backref_copy_witness :
    (backrefCopy [1, 2] 1 3).length = 2 + 3
    ∧ (backrefCopy [1, 2] 1 3).getD (2 + 2) 0 = (backrefCopy [1, 2] 1 3).getD (1 + 2) 0 :=
  ⟨(c2_backref_copy [1, 2] 1 3 (by decide)).1,
    (c2_backref_copy [1, 2] 1 3 (by decide)).2 2 (by decide)⟩

/-- C4 counterexample: two tiles with identical pixel grids but
different collision codes are unequal, and the canonicalizer's lookup
map (keyed on derived `Tile` equality) does not identify them: after
inserting one, looking up the other misses. -/
theorem c4_counterexample :
    (Tile.mk false 0 false false (List.replicate 8 (List.replicate 8 0))).pixels
      = (Tile.mk false 1 false false (List.replicate 8 (List.replicate 8 0))).pixels
    ∧ Tile.mk false 0 false false (List.replicate 8 (List.replicate 8 0))
      ≠ Tile.mk false 1 false false (List.replicate 8 (List.replicate 8 0))
    ∧ insertEntry emptyCanon.tile_lookup
        (Tile.mk false 0 false false (List.replicate 8 (List.replicate 8 0))) (0, Flip.none)
        (Tile.mk false 1 false false (List.replicate 8 (List.replicate 8 0)))
      = Option.none := by decide

/-- C4 amended: `Tile` equality is the derived structural equality over
all five fields — priority, collision and the legal-flip flags
participate alongside the pixel grid (in the deduplication map the
flip flags are always false on keys, but priority and collision do
distinguish keys of equal pixel content). -/
theorem c4_tile_equality (t1 t2 : Tile) :
    t1 = t2 ↔ t1.priority = t2.priority ∧ t1.collision = t2.collision
      ∧ t1.h_flippable = t2.h_flippable ∧ t1.v_flippable = t2.v_flippable
      ∧ t1.pixels = t2.pixels := by
  constructor
  · rintro rfl
    exact ⟨rfl, rfl, rfl, rfl, rfl⟩
  · rintro ⟨h1, h2, h3, h4, h5⟩
    cases t1
    cases t2
    simp_all

/-- C6: when the pal_set table's aux2 byte is out of range (≥ 20), the
resolver's aux2 is the byte read at `pal_set_addr + prev_pal_set*4 + 1`
(the previous slot's pal_set entry), not the slot's own out-of-range
value, and the slot still resolves successfully (non-fatal). -/
theorem c6_aux2_fallback (rom : Rom) (c : Constants) (i parent mn ps prev a1 a2 an fb : Nat)
    (hmn : mainOf rom c i parent = some mn)
    (hps : palSetOf rom c i parent = some ps)
    (hprev : prevPalSetOf rom c parent = some prev)
    (ha1 : readSnes rom (c.pal_set_addr + ps * 4) = some a1)
    (ha2 : readSnes rom (c.pal_set_addr + ps * 4 + 1) = some a2)
    (han : readSnes rom (c.pal_set_addr + ps * 4 + 2) = some an)
    (hge : a2 ≥ 20)
    (hfb : readSnes rom (c.pal_set_addr + prev * 4 + 1) = some fb) :
    loadMapPalettesSingle rom c i parent
      = some ⟨mn, if a1 ≥ 20 then 0 else a1, fb, if an ≥ 14 then 0 else an⟩ := by
  simp [loadMapPalettesSingle, hmn, hps, hprev, ha1, ha2, han, hge, hfb]

/-- C6 witness: slot 1 reads aux2 = 25 (≥ 20) and resolves to the
previous slot's pal_set aux2 value 7, non-fatally. -/
theorem c6_aux2_fallback_witness :
    loadMapPalettesSingle c6rom c6consts 1 1 = some ⟨0, 5, 7, 3⟩ :=
  c6_aux2_fallback c6rom c6consts 1 1 0 0 1 5 25 3 7
    (by decide) (by decide) (by decide) (by decide) (by decide) (by decide)
    (by decide) (by decide)

/-- C7: a map cell whose combined composite-32 index `(high << 8) | low`
is at or above `tiles32_cnt` is written as 0, the occurrence is logged,
and the block is still produced (16 rows; the condition is not fatal). -/
theorem c7_map_tile_clamp (high low : List Nat) (cnt x y : Nat)
    (hx : x < 16) (hy : y < 16)
    (hoob : (high.getD (y * 16 + x) 0) <<< 8 ||| low.getD (y * 16 + x) 0 ≥ cnt) :
    ((buildMapBlock high low cnt).getD y []).getD x 0 = 0
    ∧ (x, y, (high.getD (y * 16 + x) 0) <<< 8 ||| low.getD (y * 16 + x) 0)
        ∈ mapBlockLog high low cnt
    ∧ (buildMapBlock high low cnt).length = 16 := by
  refine ⟨?_, ?_, by simp [buildMapBlock]⟩
  · rw [buildMapBlock, getD_map_range _ _ _ _ hy, getD_map_range _ _ _ _ hx]
    simp only [mapCell]
    rw [if_pos hoob]
  · rw [mapBlockLog]
    apply List.mem_flatten.mpr
    refine ⟨_, List.mem_map_of_mem _ (List.mem_range.mpr hy), ?_⟩
    apply List.mem_filterMap.mpr
    refine ⟨x, List.mem_range.mpr hx, ?_⟩
    show (if (high.getD (y * 16 + x) 0) <<< 8 ||| low.getD (y * 16 + x) 0 ≥ cnt
        then some (x, y, (high.getD (y * 16 + x) 0) <<< 8 ||| low.getD (y * 16 + x) 0)
        else Option.none) = _
    rw [if_pos hoob]

/-- C7 witness: with every high byte 1 and `tiles32_cnt = 8`, cell
(0, 0) combines to 256 ≥ 8, is clamped to 0 and logged. -/
theorem c7_map_tile_clamp_witness :
    ((buildMapBlock (List.replicate 256 1) (List.replicate 256 0) 8).getD 0 []).getD 0 0 = 0
    ∧ ((0 : Nat), (0 : Nat), (256 : Nat))
        ∈ mapBlockLog (List.replicate 256 1) (List.replicate 256 0) 8
    ∧ (buildMapBlock (List.replicate 256 1) (List.replicate 256 0) 8).length = 16 :=
  c7_map_tile_clamp (List.replicate 256 1) (List.replicate 256 0) 8 0 0
    (by decide) (by decide) (by decide)

/-- C8 counterexample: region 0 of the imported parent table is marked
as a 2×2 slot block (slot 1's parent is 0), yet the emitted Area's size
is (4, 4) screens, not (2, 2). -/
theorem c8_counterexample :
    load_map_parents.getD 1 0xFFFF = 0 ∧ (0 : Nat) % 8 ≤ 6
    ∧ areaScreenSize load_map_parents 0 ≠ (2, 2) := by decide

/-- C8 amended: a region marked as a 2×2 slot block (child slot
present) produces an Area whose size is (2, 2) in map-slot units and
hence (4, 4) screens, and the grid walk reads tile data from all four
child map slots `parent, parent+1, parent+8, parent+9`, not only the
parent's. -/
theorem c8_region_geometry (parents : List Nat) (parent : Nat)
    (hbx : parent % 8 ≤ 6)
    (hchild : parents.getD (parent + 1) 0xFFFF = parent) :
    areaScreenSize parents parent = (4, 4)
    ∧ regionMapIdxs parents parent = [parent, parent + 1, parent + 8, parent + 9] := by
  have hsz : regionSize parents parent = (2, 2) := by
    rw [regionSize, if_pos ⟨hbx, hchild⟩]
  constructor
  · rw [areaScreenSize, hsz]
    rfl
  · rw [regionMapIdxs, hsz]
    show (([0, 1].map fun my => [0, 1].map fun mx => parent + my * 8 + mx)).flatten = _
    simp

/-- C8 witness: region 0 with the imported parent table. -/
theorem c8_region_geometry_witness :
    areaScreenSize load_map_parents 0 = (4, 4)
    ∧ regionMapIdxs load_map_parents 0 = [0, 1, 8, 9] :=
  c8_region_geometry load_map_parents 0 (by decide) (by decide)

/-- C9: the stream `[0x07, 0x41 × 8, 0xFF]` decompresses, from its
first byte, to exactly the eight 0x41 bytes: the 0x07 header is a raw
block of length 8, and the trailing 0xFF is consumed as the terminator
rather than as a block header. -/
theorem c9_raw_block_stream :
    decompress ⟨[0x07, 0x41, 0x41, 0x41, 0x41, 0x41, 0x41, 0x41, 0x41, 0xFF]⟩ 0 false
      = some [0x41, 0x41, 0x41, 0x41, 0x41, 0x41, 0x41, 0x41] := by decide

/-- C10: at the end of area building every palette's tile list is its
deduplicated used tiles (with the learned flip flags written back)
padded with default tiles up to the next multiple of 16; pruning keeps
exactly the palettes with a non-empty tile list, so every surviving
palette has a non-empty tile list whose length is a multiple of 16. -/
theorem c10_pad_prune :
    (∀ (used : List Tile) (h v : List Bool), h.length = used.length → v.length = used.length →
      finalizeTiles used h v
          = setFlags used h v
            ++ List.replicate ((used.length + 15) / 16 * 16 - used.length) Tile.default
        ∧ (finalizeTiles used h v).length % 16 = 0
        ∧ (finalizeTiles used h v = [] ↔ used = []))
    ∧ (∀ (ps : List Palette) (p : Palette), p ∈ prunePalettes ps ↔ p ∈ ps ∧ p.tiles ≠ [])
    ∧ (∀ (ps : List Palette),
        (∀ p ∈ ps, ∃ used h v, h.length = used.length ∧ v.length = used.length
            ∧ p.tiles = finalizeTiles used h v) →
        ∀ p ∈ prunePalettes ps, p.tiles ≠ [] ∧ p.tiles.length % 16 = 0) := by
  have hpart1 : ∀ (used : List Tile) (h v : List Bool),
      h.length = used.length → v.length = used.length →
      finalizeTiles used h v
          = setFlags used h v
            ++ List.replicate ((used.length + 15) / 16 * 16 - used.length) Tile.default
        ∧ (finalizeTiles used h v).length % 16 = 0
        ∧ (finalizeTiles used h v = [] ↔ used = []) := by
    intro used h v hh hv
    have hlen := setFlags_length used h v hh hv
    refine ⟨by rw [finalizeTiles, padTiles, hlen], ?_, ?_⟩
    · rw [finalizeTiles, padTiles_length]
      omega
    · have hfl : (finalizeTiles used h v).length = (used.length + 15) / 16 * 16 := by
        rw [finalizeTiles, padTiles_length, hlen]
      constructor
      · intro he
        have h0 : (finalizeTiles used h v).length = 0 := by rw [he]; rfl
        rw [hfl] at h0
        have : used.length = 0 := by omega
        exact List.eq_nil_of_length_eq_zero this
      · intro he
        have h0 : (finalizeTiles used h v).length = 0 := by
          rw [hfl, he]
          rfl
        exact List.eq_nil_of_length_eq_zero h0
  refine ⟨hpart1, mem_prunePalettes, ?_⟩
  intro ps hform p hp
  obtain ⟨hmem, hne⟩ := (mem_prunePalettes ps p).mp hp
  obtain ⟨used, h, v, hh, hv, ht⟩ := hform p hmem
  refine ⟨hne, ?_⟩
  rw [ht]
  exact (hpart1 used h v hh hv).2.1

/-! ### C3: address translation -/

theorem testBit_mask3F8000 (j : Nat) :
    Nat.testBit 0x3F8000 j = (decide (15 ≤ j) && decide (j < 22)) := by
  rw [show (0x3F8000 : Nat) = (2 ^ 7 - 1) <<< 15 by decide, Nat.testBit_shiftLeft,
    Nat.testBit_two_pow_sub_one]
  by_cases h15 : 15 ≤ j
  · by_cases h22 : j < 22
    · simp [h15, h22, ge_iff_le, decide_eq_true_eq]
      omega
    · simp [h15, h22, ge_iff_le, decide_eq_false_iff_not]
      omega
  · simp [h15, ge_iff_le]

theorem testBit_mask7FFF (j : Nat) : Nat.testBit 0x7FFF j = decide (j < 15) := by
  rw [show (0x7FFF : Nat) = 2 ^ 15 - 1 by norm_num, Nat.testBit_two_pow_sub_one]

theorem testBit_snesToPc (a j : Nat) :
    (snesToPc a).testBit j
      = ((a.testBit (1 + j) && (decide (15 ≤ j) && decide (j < 22)))
         || (a.testBit j && decide (j < 15))) := by
  simp [snesToPc, Nat.testBit_or, Nat.testBit_and, Nat.testBit_shiftRight,
    testBit_mask3F8000, testBit_mask7FFF]

/-- On valid addresses (bit 15 set, below the mirrored banks) the
translation loses no information: `pcToSnes` recovers the address. -/
theorem pcToSnes_snesToPc (a : Nat) (hlt : a < 0x800000) (hbit : a &&& 0x8000 = 0x8000) :
    pcToSnes (snesToPc a) = a := by
  have h8 : Nat.testBit 0x8000 15 = true := by decide
  have hb15 : a.testBit 15 = true := by
    have h := congrArg (fun x => Nat.testBit x 15) hbit
    simpa [Nat.testBit_and, h8] using h
  have hhi : ∀ j, 23 ≤ j → a.testBit j = false := by
    intro j hj
    apply Nat.testBit_lt_two_pow
    calc a < 0x800000 := hlt
      _ = 2 ^ 23 := by norm_num
      _ ≤ 2 ^ j := Nat.pow_le_pow_right (by norm_num) hj
  apply Nat.eq_of_testBit_eq
  intro j
  rw [pcToSnes]
  simp only [Nat.testBit_or, Nat.testBit_shiftLeft, Nat.testBit_shiftRight,
    Nat.testBit_and, testBit_mask7FFF, testBit_snesToPc,
    show (0x8000 : Nat) = 2 ^ 15 by norm_num, Nat.testBit_two_pow]
  rcases Nat.lt_or_ge j 15 with hj | hj
  · simp [show ¬ (j ≥ 16) by omega, show (15 : Nat) ≠ j by omega,
      show ¬ (15 ≤ j) by omega, hj]
  · rcases Nat.eq_or_lt_of_le hj with hj15 | hj16
    · simp [← hj15, hb15]
    · rcases Nat.lt_or_ge j 23 with hj23 | hj23
      · simp [show 1 + (15 + (j - 16)) = j by omega, show 15 ≤ 15 + (j - 16) by omega,
          show 15 + (j - 16) < 22 by omega, show j ≥ 16 by omega,
          show ¬ (j < 15) by omega, show (15 : Nat) ≠ j by omega,
          show ¬ (15 + (j - 16) < 15) by omega]
      · simp [show ¬ (15 + (j - 16) < 22) by omega, show ¬ (j < 15) by omega,
          show (15 : Nat) ≠ j by omega, show ¬ (15 + (j - 16) < 15) by omega,
          hhi j hj23]

/-- C3: the SnesAddr→PcAddr translation is injective on bank addresses
with the `0x8000` bit set and upper-bank-appropriate bits (not a
mirrored bank, i.e. below `0x800000`), and translating any address
whose `0x8000` bit is clear (the RAM/register pattern) fails — the
source's assertion, modelled as `Option.none`. -/
theorem c3_address_translation :
    (∀ a b : Nat, validSnes a → validSnes b → snesToPc a = snesToPc b → a = b)
    ∧ (∀ a : Nat, a &&& 0x8000 = 0 → snesToPcChecked a = Option.none) := by
  constructor
  · rintro a b ⟨ha1, ha2⟩ ⟨hb1, hb2⟩ h
    have h2 := congrArg pcToSnes h
    rwa [pcToSnes_snesToPc a ha1 ha2, pcToSnes_snesToPc b hb1 hb2] at h2
  · intro a h
    rw [snesToPcChecked, if_neg]
    intro hc
    rw [h] at hc
    exact absurd hc (by norm_num)

/-! ### C5: canonicalizer -/

theorem apply_to_tile_none (t : Tile) : Flip.none.apply_to_tile t = t := rfl

theorem canonicalizeWith_none (s : CanonState) (t : Tile) :
    canonicalizeWith s t Flip.none = canonicalize s t := rfl

theorem markFlip_tile_lookup (s : CanonState) (idx : Nat) (fl : Flip) :
    (markFlip s idx fl).tile_lookup = s.tile_lookup := by
  cases fl <;> rfl

theorem getD_set_self : ∀ (l : List Bool) (i : Nat) (b : Bool), i < l.length →
    (l.set i b).getD i false = b
  | _ :: _, 0, _, _ => rfl
  | _ :: xs, i + 1, b, h => getD_set_self xs i b (by simpa using h)

/-- A lookup miss allocates the next index, pushes the tile and false
flag bits, and installs the four flip images as keys. -/
theorem canonicalize_miss (s : CanonState) (T : Tile) (hl : s.tile_lookup T = Option.none) :
    canonicalize s T
      = (⟨[Flip.none, Flip.horizontal, Flip.vertical, Flip.both].foldl
            (fun m (f : Flip) => insertEntry m (f.apply_to_tile T) (s.used_tiles.length, f))
            s.tile_lookup,
          s.used_tiles ++ [T], s.h_flippable ++ [false], s.v_flippable ++ [false]⟩,
         s.used_tiles.length, Flip.none) := by
  simp [canonicalize, hl, markFlip]

/-- After a miss on `T`, the 180°-flipped key is present and maps to
the newly allocated index with flip `both` (it is the last insertion,
so it survives any overwrites among symmetric keys). -/
theorem canonicalize_miss_lookup_both (s : CanonState) (T : Tile)
    (hl : s.tile_lookup T = Option.none) :
    (canonicalize s T).1.tile_lookup (Flip.both.apply_to_tile T)
      = some (s.used_tiles.length, Flip.both) := by
  rw [canonicalize_miss s T hl]
  simp [List.foldl, insertEntry]

theorem canonicalize_hit (s : CanonState) (T : Tile) (i : Nat) (f0 : Flip)
    (hl : s.tile_lookup T = some (i, f0)) :
    canonicalize s T = (markFlip s i f0, i, f0) := by
  simp [canonicalize, hl]

/-- C5: canonicalizing `apply(f, T)` with desired flip none equals
canonicalizing `T` with desired flip `f` (the call site pre-applies
the desired flip, so the two lookups coincide); canonicalizing `T` and
then `apply(Both, T)` yields the same stored index, over any state
whose lookup map is closed under flip orbits per stored index (the
invariant the construction maintains); and when `T` is fresh and
self-identical under the 180° flip, the second call marks the stored
index both horizontally and vertically flippable. -/
theorem c5_canonicalize (s : CanonState) (T : Tile) (f : Flip)
    (hcl : orbitClosed s.tile_lookup)
    (hh : s.h_flippable.length = s.used_tiles.length)
    (hv : s.v_flippable.length = s.used_tiles.length) :
    (canonicalizeWith s (f.apply_to_tile T) Flip.none).2.1 = (canonicalizeWith s T f).2.1
    ∧ (canonicalizeWith (canonicalizeWith s T Flip.none).1
         (Flip.both.apply_to_tile T) Flip.none).2.1
        = (canonicalizeWith s T Flip.none).2.1
    ∧ (s.tile_lookup T = Option.none → Flip.both.apply_to_tile T = T →
        (canonicalizeWith (canonicalizeWith s T Flip.none).1
           (Flip.both.apply_to_tile T) Flip.none).1.h_flippable.getD
             (canonicalizeWith s T Flip.none).2.1 false = true
        ∧ (canonicalizeWith (canonicalizeWith s T Flip.none).1
             (Flip.both.apply_to_tile T) Flip.none).1.v_flippable.getD
               (canonicalizeWith s T Flip.none).2.1 false = true) := by
  refine ⟨rfl, ?_, ?_⟩
  · rw [canonicalizeWith_none, canonicalizeWith_none]
    rcases hl : s.tile_lookup T with _ | ⟨i, f0⟩
    · rw [canonicalize_hit _ _ _ _ (canonicalize_miss_lookup_both s T hl)]
      rw [canonicalize_miss s T hl]
    · obtain ⟨f2, hf2⟩ := hcl T i f0 hl Flip.both
      rw [canonicalize_hit s T i f0 hl]
      have hlk : (markFlip s i f0).tile_lookup (Flip.both.apply_to_tile T) = some (i, f2) := by
        rw [markFlip_tile_lookup]
        exact hf2
      rw [canonicalize_hit _ _ _ _ hlk]
  · intro hl hsym
    rw [canonicalizeWith_none, canonicalizeWith_none]
    rw [canonicalize_hit _ _ _ _ (canonicalize_miss_lookup_both s T hl)]
    rw [canonicalize_miss s T hl]
    constructor
    · show (((s.h_flippable ++ [false]).set s.used_tiles.length true).getD
          s.used_tiles.length false) = true
      apply getD_set_self
      simp
      omega
    · show (((s.v_flippable ++ [false]).set s.used_tiles.length true).getD
          s.used_tiles.length false) = true
      apply getD_set_self
      simp
      omega

/-- C5 witness: the empty state (trivially orbit-closed) with the
default tile, which is 180°-symmetric, and desired flip horizontal. -/
theorem c5_canonicalize_witness :
    (canonicalizeWith emptyCanon (Flip.horizontal.apply_to_tile Tile.default) Flip.none).2.1
        = (canonicalizeWith emptyCanon Tile.default Flip.horizontal).2.1
    ∧ (canonicalizeWith (canonicalizeWith emptyCanon Tile.default Flip.none).1
         (Flip.both.apply_to_tile Tile.default) Flip.none).2.1
        = (canonicalizeWith emptyCanon Tile.default Flip.none).2.1
    ∧ ((canonicalizeWith (canonicalizeWith emptyCanon Tile.default Flip.none).1
           (Flip.both.apply_to_tile Tile.default) Flip.none).1.h_flippable.getD
             (canonicalizeWith emptyCanon Tile.default Flip.none).2.1 false = true
        ∧ (canonicalizeWith (canonicalizeWith emptyCanon Tile.default Flip.none).1
             (Flip.both.apply_to_tile Tile.default) Flip.none).1.v_flippable.getD
               (canonicalizeWith emptyCanon Tile.default Flip.none).2.1 false = true) :=
  have h := c5_canonicalize emptyCanon Tile.default Flip.horizontal
    (fun _ _ _ hk _ => nomatch hk) rfl rfl
  ⟨h.1, h.2.1, h.2.2 rfl (by decide)⟩

end Z3OE
